import Mathlib

/-!
Shallow embedding of the authentication & request-safety layer of the
crackit360 backend (`src/security.py`), together with proofs of the
spec-derived claims about it.

Conventions of the embedding:
* Python `str` values that are inspected character-by-character
  (passwords, filenames) are modelled as `List Char`; keys and other
  strings compared only for equality stay `String`.
* Python `dict`s are association lists in insertion order (Python dicts
  preserve insertion order and have unique keys).
* Machine floats holding POSIX timestamps are modelled as `ℤ`
  (the code is generic in the time scale; nothing depends on sub-integer
  granularity).
* Fallible Python code is modelled with `Except`; raising `HTTPException`
  becomes an `HTTPError` value.
* bcrypt and SHA-256 are external primitives, not code of this
  repository; they are idealized as collision-free functions of their
  input (the digest records the exact input bytes), which is the standard
  ideal model matching the spec's "with overwhelming probability".
-/

/-- Model of fastapi's `HTTPException`: a status code and a detail string. -/
structure HTTPError where
  statusCode : Nat
  detail : String
deriving DecidableEq, Repr

/-- Python exceptions other than `HTTPException` that the modelled code can raise. -/
inductive PyExc where
  | valueError : String → PyExc
  | keyError : String → PyExc
deriving DecidableEq, Repr

/-- A Python JSON-ish value, as found in request bodies and Mongo filters.
Only the `dict`/non-`dict` distinction is inspected by the modelled code. -/
inductive PyVal where
  | vstr : String → PyVal
  | vint : Int → PyVal
  | vbool : Bool → PyVal
  | vnone : PyVal
  | vdict : List (String × PyVal) → PyVal
deriving Repr

/-- `isinstance(value, dict)`. -/
def PyVal.isDict : PyVal → Bool
  | .vdict _ => true
  | _ => false

/-- `key.startswith("$")`: the first character is `'$'`. -/
def startsWithDollar (s : String) : Bool :=
  match s.toList with
  | [] => false
  | c :: _ => c = '$'

/-- Python `d[k] = v` on an insertion-ordered dict: replace in place if the
key is present, otherwise append. -/
def dictInsert (d : List (String × PyVal)) (k : String) (v : PyVal) :
    List (String × PyVal) :=
  if d.any (fun p => p.1 = k) then
    d.map (fun p => if p.1 = k then (k, v) else p)
  else
    d ++ [(k, v)]

/-! ## Password hashing (`hash_password`, `verify_password`) -/

/-- The whitespace set of Python's `str.strip()` with no argument
(ASCII portion; the code never strips exotic Unicode whitespace in the
claims considered). -/
def pyIsSpace (c : Char) : Bool :=
  c = ' ' ∨ c = '\t' ∨ c = '\n' ∨ c = '\r' ∨ c = '\x0b' ∨ c = '\x0c'

/-- Python `s.strip()`: drop whitespace from both ends. -/
def pyStrip (s : List Char) : List Char :=
  ((s.dropWhile pyIsSpace).reverse.dropWhile pyIsSpace).reverse

/-- Python `s.encode("utf-8")`. -/
def utf8Encode (s : List Char) : List UInt8 :=
  s.flatMap String.utf8EncodeChar

/-- The preprocessing both `hash_password` and `verify_password` apply to the
plaintext: `password.strip().encode("utf-8")` truncated to 72 bytes. -/
def prepPassword (p : List Char) : List UInt8 :=
  (utf8Encode (pyStrip p)).take 72

/-- A parsed bcrypt hash: the salt and the digest.  Idealized: the digest
records the exact input bytes, standing for bcrypt's collision-free ideal
behaviour ("false with overwhelming probability" in the spec). -/
structure BcryptHash where
  salt : Nat
  digest : List UInt8
deriving DecidableEq, Repr

/-- Idealized `bcrypt.hashpw`. -/
def bcrypt_hashpw (b : List UInt8) (salt : Nat) : BcryptHash :=
  ⟨salt, b⟩

/-- Idealized `bcrypt.checkpw` against a parsed hash: re-derive with the
embedded salt and compare. -/
def bcrypt_checkpw (b : List UInt8) (h : BcryptHash) : Bool :=
  decide (bcrypt_hashpw b h.salt = h)

/-- A stored hash string: either it parses as a bcrypt hash or it is
malformed (in which case `bcrypt.checkpw` raises `ValueError`). -/
inductive StoredHash where
  | malformed : String → StoredHash
  | wellFormed : BcryptHash → StoredHash
deriving DecidableEq, Repr

/-- `hash_password` (src/security.py:51): strip, UTF-8 encode, truncate to 72
bytes, hash with a fresh salt.  The salt, random in the code, is a parameter. -/
def hash_password (password : List Char) (salt : Nat) : StoredHash :=
  .wellFormed (bcrypt_hashpw (prepPassword password) salt)

/-- The body of `verify_password`'s `try` block (src/security.py:66-70):
preprocess the candidate and call `bcrypt.checkpw`, which raises on a
malformed stored hash. -/
def verify_password_attempt (plain : List Char) (hashed : StoredHash) :
    Except PyExc Bool :=
  match hashed with
  | .malformed s => .error (.valueError s)
  | .wellFormed h => .ok (bcrypt_checkpw (prepPassword plain) h)

/-- `verify_password` (src/security.py:65): the `try` body with
`except Exception: return False`. -/
def verify_password (plain : List Char) (hashed : StoredHash) : Bool :=
  match verify_password_attempt plain hashed with
  | .ok b => b
  | .error _ => false

/-! ## JWT tokens (`decode_access_token`, `create_reset_token`, `verify_reset_token`) -/

/-- The claims carried by the tokens this layer issues.  `sub` and `purpose`
are absent-able string claims; `exp` is a POSIX timestamp. -/
structure JwtClaims where
  sub : Option String
  purpose : Option String
  exp : ℤ
deriving DecidableEq, Repr

/-- A signed JWT: the claims plus the key and algorithm it was signed with. -/
structure SignedJwt where
  claims : JwtClaims
  key : String
  alg : String
deriving DecidableEq, Repr

/-- `jose.jwt.encode(payload, key, algorithm)`. -/
def jwtEncode (claims : JwtClaims) (key : String) (alg : String) : SignedJwt :=
  ⟨claims, key, alg⟩

/-- `jose.jwt.decode(token, key, algorithms)` at time `now`: succeeds when the
key matches, the algorithm is among those accepted and the token is not
expired; otherwise raises `JWTError` (modelled as `.error ()`). -/
def jwtDecode (tok : SignedJwt) (key : String) (algs : List String) (now : ℤ) :
    Except Unit JwtClaims :=
  if tok.key = key ∧ tok.alg ∈ algs ∧ now < tok.claims.exp then
    .ok tok.claims
  else
    .error ()

/-- `decode_access_token` (src/security.py:97): decode with the server secret;
on `JWTError` answer 401 "Invalid or expired token"; if the payload lacks
`"sub"` answer 401 "Invalid token payload"; otherwise return the payload.
No check of the `purpose` claim is performed. -/
def decode_access_token (secretKey alg : String) (tok : SignedJwt) (now : ℤ) :
    Except HTTPError JwtClaims :=
  match jwtDecode tok secretKey [alg] now with
  | .error _ => .error ⟨401, "Invalid or expired token"⟩
  | .ok payload =>
      if payload.sub = none then .error ⟨401, "Invalid token payload"⟩
      else .ok payload

/-- `create_reset_token` (src/security.py:268): claims
`{sub: email, purpose: "reset_password", exp: now + 15 minutes}` signed with
the server secret. -/
def create_reset_token (secretKey alg : String) (email : String) (now : ℤ) :
    SignedJwt :=
  jwtEncode { sub := some email, purpose := some "reset_password", exp := now + 15 * 60 }
    secretKey alg

/-- `verify_reset_token` (src/security.py:278): decode; on `JWTError` answer
401; if `purpose` is not `"reset_password"` answer 400; otherwise return
`payload["sub"]` (a `KeyError` on an absent `sub` is modelled as a 500;
unreachable for tokens from `create_reset_token`). -/
def verify_reset_token (secretKey alg : String) (tok : SignedJwt) (now : ℤ) :
    Except HTTPError String :=
  match jwtDecode tok secretKey [alg] now with
  | .error _ => .error ⟨401, "Invalid or expired reset token"⟩
  | .ok payload =>
      if payload.purpose ≠ some "reset_password" then
        .error ⟨400, "Invalid token purpose"⟩
      else
        match payload.sub with
        | some s => .ok s
        | none => .error ⟨500, "KeyError: sub"⟩

/-! ## Mongo-injection-safe filters (`build_safe_filter`, `build_update_payload`) -/

/-- The loop of `build_safe_filter` (src/security.py:151-156) with the
accumulated `safe` dict: skip keys not in the allow-list or starting with
`"$"`; raise 400 on a surviving dict value; otherwise record the pair. -/
def buildSafeFilterAux (allowed : List String) :
    List (String × PyVal) → List (String × PyVal) →
    Except HTTPError (List (String × PyVal))
  | [], safe => .ok safe
  | (k, v) :: rest, safe =>
      if k ∉ allowed ∨ startsWithDollar k then
        buildSafeFilterAux allowed rest safe
      else if v.isDict then
        .error ⟨400, "Invalid filter value"⟩
      else
        buildSafeFilterAux allowed rest (dictInsert safe k v)

/-- `build_safe_filter` (src/security.py:145). -/
def build_safe_filter (clientFilter : List (String × PyVal))
    (allowed : List String) : Except HTTPError (List (String × PyVal)) :=
  buildSafeFilterAux allowed clientFilter []

/-- The loop of `build_update_payload` (src/security.py:167-172): identical to
`buildSafeFilterAux` up to the error detail string. -/
def buildUpdatePayloadAux (allowed : List String) :
    List (String × PyVal) → List (String × PyVal) →
    Except HTTPError (List (String × PyVal))
  | [], safe => .ok safe
  | (k, v) :: rest, safe =>
      if k ∉ allowed ∨ startsWithDollar k then
        buildUpdatePayloadAux allowed rest safe
      else if v.isDict then
        .error ⟨400, "Invalid update value"⟩
      else
        buildUpdatePayloadAux allowed rest (dictInsert safe k v)

/-- `build_update_payload` (src/security.py:161): run the filtering loop,
fail 400 "No valid fields to update" when nothing survived, else wrap the
survivors as `{"$set": ...}`. -/
def build_update_payload (body : List (String × PyVal))
    (allowed : List String) : Except HTTPError (List (String × PyVal)) :=
  match buildUpdatePayloadAux allowed body [] with
  | .error e => .error e
  | .ok safe =>
      if safe.isEmpty then .error ⟨400, "No valid fields to update"⟩
      else .ok [("$set", PyVal.vdict safe)]

/-- The positive form of the skip condition in both loops: the key is in
the allow-list and does not start with `"$"`.  Used by the theorems. -/
def keepField (allowed : List String) (p : String × PyVal) : Bool :=
  decide (p.1 ∈ allowed) && !(startsWithDollar p.1)

/-! ## Upload validation (`validate_upload`) -/

def MAX_UPLOAD_SIZE : Nat := 10 * 1024 * 1024

def ALLOWED_EXTENSIONS : List (List Char) :=
  [".png".toList, ".jpg".toList, ".jpeg".toList, ".pdf".toList, ".txt".toList]

/-- `pathlib.Path(filename).name`: the last nonempty `'/'`-separated
component. -/
def pathBaseName (p : String) : List Char :=
  ((p.toList.splitOn '/').filter (fun c => c ≠ [])).getLastD []

/-- `sanitize_filename` (src/security.py:191): strip directory components,
then replace every character outside `[A-Za-z0-9._-]` with `'_'`. -/
def sanitize_filename (filename : String) : List Char :=
  (pathBaseName filename).map
    (fun c => if c.isAlphanum ∨ c = '.' ∨ c = '_' ∨ c = '-' then c else '_')

/-- `pathlib.Path(name).suffix`: from the last `'.'` on, provided that dot is
neither the first nor the last character. -/
def pathSuffix (name : List Char) : List Char :=
  match name.reverse.findIdx? (fun c => c = '.') with
  | none => []
  | some j =>
      let i := name.length - 1 - j
      if 0 < i ∧ i + 1 < name.length then name.drop i else []

/-- The extension `validate_upload` checks:
`pathlib.Path(sanitize_filename(filename)).suffix.lower()`. -/
def extOf (filename : String) : List Char :=
  (pathSuffix (sanitize_filename filename)).map Char.toLower

/-- `mimetypes.guess_type` restricted to the extensions in the allow-list
(the path handed to it always ends in the sanitized name, so the guess is a
function of `extOf`).  Modelled from Python's standard `mimetypes` table. -/
def guessMime (ext : List Char) : Option String :=
  if ext = ".png".toList then some "image/png"
  else if ext = ".jpg".toList ∨ ext = ".jpeg".toList then some "image/jpeg"
  else if ext = ".pdf".toList then some "application/pdf"
  else if ext = ".txt".toList then some "text/plain"
  else none

/-- `guessed_mime.startswith(ALLOWED_MIME_PREFIXES)`. -/
def mimeAllowed (m : String) : Bool :=
  ["image/", "text/", "application/pdf"].any
    (fun p => p.toList.isPrefixOf m.toList)

/-- The successive results of `file_stream.read(n)`: the content cut into
chunks of at most `n` bytes (the read loop stops at the first empty read). -/
def chunksOf (n : Nat) : List UInt8 → List (List UInt8)
  | [] => []
  | x :: xs => (x :: xs.take (n - 1)) :: chunksOf n (xs.drop (n - 1))
termination_by l => l.length
decreasing_by
  simp only [List.length_drop, List.length_cons]
  omega

/-- Idealized stand-in for the SHA-256 digest (`hashlib.sha256(...)`); the
claims considered do not depend on its value, only on its determinism. -/
def sha256Model (b : List UInt8) : List UInt8 := b

/-- What `validate_upload` returns on success (the storage path, which
embeds a random token, is omitted from the model). -/
structure UploadResult where
  size : Nat
  hash : List UInt8
deriving DecidableEq, Repr

/-- The `while chunk := file_stream.read(4096)` loop of `validate_upload`
(src/security.py:207-215): add each chunk's length to the running size and
abort — deleting the partial file — the moment it exceeds the ceiling,
otherwise write the chunk.  Returns the total size and the bytes written. -/
def writeLoop : List (List UInt8) → Nat → List UInt8 →
    Except HTTPError (Nat × List UInt8)
  | [], size, written => .ok (size, written)
  | c :: rest, size, written =>
      let size' := size + c.length
      if MAX_UPLOAD_SIZE < size' then .error ⟨400, "File too large"⟩
      else writeLoop rest size' (written ++ c)

/-- `validate_upload` (src/security.py:196): the `Bool` component records
whether a file is left on disk afterwards. -/
def validate_upload (filename : String) (content : List UInt8) :
    Except HTTPError UploadResult × Bool :=
  let ext := extOf filename
  if ext ∉ ALLOWED_EXTENSIONS then
    (.error ⟨400, "File type not allowed"⟩, false)
  else
    match writeLoop (chunksOf 4096 content) 0 [] with
    | .error e => (.error e, false)
    | .ok (size, written) =>
        match guessMime ext with
        | some m =>
            if ¬ mimeAllowed m then (.error ⟨400, "Suspicious file type"⟩, false)
            else (.ok ⟨size, sha256Model written⟩, true)
        | none => (.ok ⟨size, sha256Model written⟩, true)

/-! ## Rate limiter (`check_rate_limit`) -/

/-- The module-level `_rate_store`: per-`"ip:route"` lists of timestamps. -/
def RateStore : Type := String → List ℤ

/-- `check_rate_limit` (src/security.py:250): prune entries older than the
window, reject without recording when the pruned count is at or above the
ceiling, otherwise record `now` and accept.  The updated store is returned
alongside the decision. -/
def check_rate_limit (window : ℤ) (maxReq : Nat) (store : RateStore)
    (ip route : String) (now : ℤ) : Bool × RateStore :=
  let key := ip ++ ":" ++ route
  let pruned := (store key).filter (fun t => now - t < window)
  if maxReq ≤ pruned.length then
    (false, fun k => if k = key then pruned else store k)
  else
    (true, fun k => if k = key then pruned ++ [now] else store k)

/-- Invariant of the rate-limiter state (claim C9), phrased against the ghost
map `last` recording the time of the last `check_rate_limit` call on each key:
every key's stored list is empty if never checked, and otherwise is no longer
than the ceiling, contains only timestamps within the trailing window of (and
not after) the last check, and is nondecreasing. -/
def RateInv (window : ℤ) (maxReq : Nat) (store : RateStore)
    (last : String → Option ℤ) : Prop :=
  ∀ k, match last k with
    | none => store k = []
    | some T =>
        (store k).length ≤ maxReq
          ∧ (∀ t ∈ store k, T - t < window ∧ t ≤ T)
          ∧ (store k).Sorted (· ≤ ·)

instance {ε α : Type} [DecidableEq ε] [DecidableEq α] : DecidableEq (Except ε α) := fun x y =>
  match x, y with
  | .ok a, .ok b =>
      if h : a = b then .isTrue (by rw [h]) else .isFalse (fun c => by cases c; exact h rfl)
  | .error a, .error b =>
      if h : a = b then .isTrue (by rw [h]) else .isFalse (fun c => by cases c; exact h rfl)
  | .ok _, .error _ => .isFalse (fun c => by cases c)
  | .error _, .ok _ => .isFalse (fun c => by cases c)

/-! ## Password hashing: claims C7, C2, C8, C10 -/

/-- Both `hash_password` and `verify_password` reduce to comparing the
preprocessed byte forms of the two plaintexts (idealized bcrypt). -/
lemma verify_hash_eq (p1 p2 : List Char) (salt : Nat) :
    verify_password p1 (hash_password p2 salt)
      = decide (prepPassword p1 = prepPassword p2) := by
  simp [verify_password, verify_password_attempt, hash_password, bcrypt_checkpw,
    bcrypt_hashpw, BcryptHash.mk.injEq]

lemma dropWhile_append_all {α : Type} (q : α → Bool) (l₁ l₂ : List α)
    (h : ∀ c ∈ l₁, q c = true) :
    (l₁ ++ l₂).dropWhile q = l₂.dropWhile q := by
  rw [List.dropWhile_append, if_pos]
  rw [List.isEmpty_iff, List.dropWhile_eq_nil_iff]
  exact h

lemma pyStrip_append_ws (l post : List Char)
    (hpost : ∀ c ∈ post, pyIsSpace c = true) :
    pyStrip (l ++ post) = pyStrip l := by
  unfold pyStrip
  by_cases hd : l.dropWhile pyIsSpace = []
  · have h1 : (l ++ post).dropWhile pyIsSpace = post.dropWhile pyIsSpace := by
      rw [List.dropWhile_append, if_pos (by rwa [List.isEmpty_iff])]
    have h2 : post.dropWhile pyIsSpace = [] := List.dropWhile_eq_nil_iff.mpr hpost
    rw [h1, h2, hd]
  · have h1 : (l ++ post).dropWhile pyIsSpace = l.dropWhile pyIsSpace ++ post := by
      rw [List.dropWhile_append, if_neg (by rwa [List.isEmpty_iff])]
    rw [h1, List.reverse_append]
    rw [dropWhile_append_all _ _ _ (by intro c hc; exact hpost c (List.mem_reverse.mp hc))]

lemma pyStrip_ws_append (pre l : List Char)
    (hpre : ∀ c ∈ pre, pyIsSpace c = true) :
    pyStrip (pre ++ l) = pyStrip l := by
  unfold pyStrip
  rw [dropWhile_append_all _ _ _ hpre]

/-- Surrounding whitespace does not change the result of `str.strip()`. -/
lemma pyStrip_pad (pre p post : List Char)
    (hpre : ∀ c ∈ pre, pyIsSpace c = true)
    (hpost : ∀ c ∈ post, pyIsSpace c = true) :
    pyStrip (pre ++ p ++ post) = pyStrip p := by
  rw [List.append_assoc, pyStrip_ws_append _ _ hpre, pyStrip_append_ws _ _ hpost]

/-- C7: for every password `P` and salt, `verify_password(P, hash_password(P))`
returns true: hashing a password and verifying the same plaintext against the
result always succeeds. -/
theorem verify_password_hash_password (p : List Char) (salt : Nat) :
    verify_password p (hash_password p salt) = true := by
  rw [verify_hash_eq]; simp

/-- C2 counterexample: the passwords `"a"` and `" a"` are distinct, yet
`verify_password("a", hash_password(" a"))` returns true, because both
functions strip surrounding whitespace before hashing. -/
theorem verify_password_collision :
    "a".toList ≠ " a".toList
      ∧ verify_password "a".toList (hash_password " a".toList 0) = true := by
  constructor
  · decide
  · rw [verify_hash_eq]; decide

/-- C2 amended: for every pair of passwords whose stripped, UTF-8-encoded and
72-byte-truncated forms differ, `verify_password(P1, hash_password(P2))`
returns false (idealized collision-free bcrypt).  Passwords that agree after
that preprocessing (e.g. differing only in surrounding whitespace, or only
beyond the 72nd byte) do verify. -/
theorem verify_password_of_prep_ne (p1 p2 : List Char) (salt : Nat)
    (h : prepPassword p1 ≠ prepPassword p2) :
    verify_password p1 (hash_password p2 salt) = false := by
  rw [verify_hash_eq]
  simpa using h

theorem verify_password_of_prep_ne_witness :
    prepPassword "a".toList ≠ prepPassword "b".toList
      ∧ verify_password "a".toList (hash_password "b".toList 0) = false :=
  ⟨by decide, verify_password_of_prep_ne "a".toList "b".toList 0 (by decide)⟩

/-- C8: whenever the body of `verify_password`'s `try` block raises — e.g. on
a malformed stored hash — `verify_password` returns false instead of
propagating the exception (and, being a total `Bool`-valued function, it never
raises). -/
theorem verify_password_error_false (plain : List Char) (hashed : StoredHash)
    (e : PyExc) (h : verify_password_attempt plain hashed = .error e) :
    verify_password plain hashed = false := by
  unfold verify_password
  rw [h]

theorem verify_password_error_false_witness :
    verify_password_attempt "pw".toList (.malformed "not-bcrypt")
        = .error (.valueError "not-bcrypt")
      ∧ verify_password "pw".toList (.malformed "not-bcrypt") = false :=
  ⟨rfl, verify_password_error_false "pw".toList (.malformed "not-bcrypt")
    (.valueError "not-bcrypt") rfl⟩

/-- C10: both functions strip surrounding whitespace before encoding and
truncation, so any whitespace-padded variant of a password verifies against
the original's hash. -/
theorem verify_password_padded (p pre post : List Char) (salt : Nat)
    (hpre : ∀ c ∈ pre, pyIsSpace c = true)
    (hpost : ∀ c ∈ post, pyIsSpace c = true) :
    verify_password (pre ++ p ++ post) (hash_password p salt) = true := by
  rw [verify_hash_eq]
  unfold prepPassword
  rw [pyStrip_pad _ _ _ hpre hpost]
  simp

theorem verify_password_padded_witness :
    (∀ c ∈ [' ', ' '], pyIsSpace c = true)
      ∧ (∀ c ∈ ['\t'], pyIsSpace c = true)
      ∧ verify_password ([' ', ' '] ++ "pw".toList ++ ['\t'])
          (hash_password "pw".toList 3) = true :=
  ⟨by decide, by decide,
    verify_password_padded "pw".toList [' ', ' '] ['\t'] 3 (by decide) (by decide)⟩

/-- C1: a reset token issued by `create_reset_token` is NOT rejected by
`decode_access_token` — it is accepted (it is well signed, unexpired and
carries a `sub` claim, and `decode_access_token` never inspects `purpose`),
while `verify_reset_token` returns the embedded email.  This evaluates the
code at the failing input of the claim. -/
theorem reset_token_accepted_as_access_token :
    decode_access_token "k" "HS256" (create_reset_token "k" "HS256" "u@x.com" 0) 1
      = .ok { sub := some "u@x.com", purpose := some "reset_password", exp := 900 }
    ∧ verify_reset_token "k" "HS256" (create_reset_token "k" "HS256" "u@x.com" 0) 1
      = .ok "u@x.com" := by
  constructor <;> decide

lemma dictInsert_fresh (d : List (String × PyVal)) (k : String) (v : PyVal)
    (h : ∀ q ∈ d, q.1 ≠ k) : dictInsert d k v = d ++ [(k, v)] := by
  unfold dictInsert
  rw [if_neg]
  simp only [List.any_eq_true, not_exists, not_and]
  intro q hq
  simpa using h q hq

lemma buildSafeFilterAux_ok (allowed : List String) :
    ∀ (cf safe : List (String × PyVal)),
      (cf.map Prod.fst).Nodup →
      (∀ p ∈ cf, keepField allowed p = true → p.2.isDict = false) →
      (∀ q ∈ safe, q.1 ∉ cf.map Prod.fst) →
      buildSafeFilterAux allowed cf safe = .ok (safe ++ cf.filter (keepField allowed))
  | [], safe, _, _, _ => by simp [buildSafeFilterAux]
  | (k, v) :: rest, safe, hnd, hnodict, hfresh => by
      rw [buildSafeFilterAux]
      simp only [List.map_cons, List.nodup_cons] at hnd
      by_cases hskip : k ∉ allowed ∨ startsWithDollar k = true
      · rw [if_pos hskip]
        have hkeep : keepField allowed (k, v) = false := by
          simp only [keepField, Bool.and_eq_false_iff, decide_eq_false_iff_not,
            Bool.not_eq_false']
          tauto
        rw [List.filter_cons, if_neg (by simp [hkeep])]
        exact buildSafeFilterAux_ok allowed rest safe hnd.2 
          (fun p hp => hnodict p (List.mem_cons_of_mem _ hp))
          (fun q hq => fun hmem => hfresh q hq (List.mem_cons_of_mem _ hmem))
      · rw [if_neg hskip]
        have hkeep : keepField allowed (k, v) = true := by
          push_neg at hskip
          simp [keepField, hskip.1, hskip.2]
        have hnd2 : v.isDict = false := hnodict (k, v) (List.mem_cons_self _ _) hkeep
        rw [hnd2]
        simp only [Bool.false_eq_true, if_false]
        rw [dictInsert_fresh safe k v
          (fun q hq => fun he => hfresh q hq (by simp [he]))]
        rw [List.filter_cons, if_pos (by simp [hkeep])]
        have := buildSafeFilterAux_ok allowed rest (safe ++ [(k, v)]) hnd.2
          (fun p hp => hnodict p (List.mem_cons_of_mem _ hp))
          (fun q hq => by
            rcases List.mem_append.mp hq with h1 | h1
            · exact fun hmem => hfresh q h1 (List.mem_cons_of_mem _ hmem)
            · simp only [List.mem_singleton] at h1
              subst h1
              simpa using hnd.1)
        rw [this]
        simp

lemma buildSafeFilterAux_error (allowed : List String) :
    ∀ (cf safe : List (String × PyVal)),
      (∃ p ∈ cf, keepField allowed p = true ∧ p.2.isDict = true) →
      buildSafeFilterAux allowed cf safe = .error ⟨400, "Invalid filter value"⟩
  | [], _, h => by simp at h
  | (k, v) :: rest, safe, h => by
      rw [buildSafeFilterAux]
      by_cases hskip : k ∉ allowed ∨ startsWithDollar k = true
      · rw [if_pos hskip]
        apply buildSafeFilterAux_error allowed rest safe
        rcases h with ⟨p, hp, hkeep, hdict⟩
        rcases List.mem_cons.mp hp with h1 | h1
        · exfalso
          rw [h1] at hkeep
          simp only [keepField, Bool.and_eq_true, decide_eq_true_eq,
            Bool.not_eq_true'] at hkeep
          rcases hskip with h | h
          · exact h hkeep.1
          · rw [hkeep.2] at h
            exact Bool.false_ne_true h
        · exact ⟨p, h1, hkeep, hdict⟩
      · rw [if_neg hskip]
        by_cases hdv : v.isDict = true
        · rw [hdv]
          simp
        · rw [Bool.not_eq_true] at hdv
          rw [hdv]
          simp only [Bool.false_eq_true, if_false]
          apply buildSafeFilterAux_error allowed rest
          rcases h with ⟨p, hp, hkeep, hdict⟩
          rcases List.mem_cons.mp hp with h1 | h1
          · exfalso
            rw [h1] at hdict
            simp [hdv] at hdict
          · exact ⟨p, h1, hkeep, hdict⟩

/-- C4: `build_safe_filter` returns exactly the input entries whose key is
in the allow-list and does not start with `"$"`, with their original values,
and raises a 400 `ValidationError` exactly when some surviving value is
itself a nested mapping. -/
theorem build_safe_filter_spec (cf : List (String × PyVal)) (allowed : List String)
    (hnd : (cf.map Prod.fst).Nodup) :
    ((∀ p ∈ cf, keepField allowed p = true → p.2.isDict = false) →
        build_safe_filter cf allowed = .ok (cf.filter (keepField allowed)))
    ∧ ((∃ p ∈ cf, keepField allowed p = true ∧ p.2.isDict = true) →
        build_safe_filter cf allowed = .error ⟨400, "Invalid filter value"⟩) := by
  constructor
  · intro hnodict
    unfold build_safe_filter
    rw [buildSafeFilterAux_ok allowed cf [] hnd hnodict (by simp)]
    simp
  · intro hdict
    exact buildSafeFilterAux_error allowed cf [] hdict

theorem build_safe_filter_spec_witness :
    build_safe_filter [("email", .vstr "a@b.com"), ("$where", .vstr "...")] ["email"]
        = .ok [("email", .vstr "a@b.com")]
    ∧ build_safe_filter [("q", .vdict [("$gt", .vstr "0")])] ["q"]
        = .error ⟨400, "Invalid filter value"⟩ :=
  ⟨((build_safe_filter_spec [("email", .vstr "a@b.com"), ("$where", .vstr "...")]
      ["email"] (by decide)).1 (by decide)).trans rfl,
   (build_safe_filter_spec [("q", .vdict [("$gt", .vstr "0")])] ["q"] (by decide)).2
     ⟨("q", .vdict [("$gt", .vstr "0")]), by simp, by decide, rfl⟩⟩

lemma buildUpdatePayloadAux_eq (allowed : List String) :
    ∀ (cf safe : List (String × PyVal)),
      buildUpdatePayloadAux allowed cf safe
        = match buildSafeFilterAux allowed cf safe with
          | .ok l => .ok l
          | .error _ => .error ⟨400, "Invalid update value"⟩
  | [], safe => by simp [buildUpdatePayloadAux, buildSafeFilterAux]
  | (k, v) :: rest, safe => by
      rw [buildUpdatePayloadAux, buildSafeFilterAux]
      by_cases hskip : k ∉ allowed ∨ startsWithDollar k = true
      · rw [if_pos hskip, if_pos hskip]
        exact buildUpdatePayloadAux_eq allowed rest safe
      · rw [if_neg hskip, if_neg hskip]
        by_cases hdv : v.isDict = true
        · rw [hdv]
          simp
        · rw [Bool.not_eq_true] at hdv
          rw [hdv]
          simp only [Bool.false_eq_true, if_false]
          exact buildUpdatePayloadAux_eq allowed rest (dictInsert safe k v)

/-- C5: `build_update_payload` applies the same allow-list filtering as
`build_safe_filter` and wraps the surviving fields as a `{"$set": ...}`
update; it fails with 400 "No valid fields to update" whenever no field
survives, in particular for an empty body. -/
theorem build_update_payload_spec (body : List (String × PyVal)) (allowed : List String) :
    (∀ l, build_safe_filter body allowed = .ok l →
        build_update_payload body allowed
          = if l.isEmpty then .error ⟨400, "No valid fields to update"⟩
            else .ok [("$set", PyVal.vdict l)])
    ∧ (∀ e, build_safe_filter body allowed = .error e →
        build_update_payload body allowed = .error ⟨400, "Invalid update value"⟩)
    ∧ build_update_payload [] allowed = .error ⟨400, "No valid fields to update"⟩ := by
  refine ⟨?_, ?_, rfl⟩
  · intro l hl
    unfold build_update_payload
    rw [buildUpdatePayloadAux_eq]
    unfold build_safe_filter at hl
    rw [hl]
  · intro e he
    unfold build_update_payload
    rw [buildUpdatePayloadAux_eq]
    unfold build_safe_filter at he
    rw [he]

theorem build_update_payload_spec_witness :
    build_update_payload [("name", .vstr "x")] ["name"]
        = .ok [("$set", PyVal.vdict [("name", PyVal.vstr "x")])]
    ∧ build_update_payload [] ["name"] = .error ⟨400, "No valid fields to update"⟩ :=
  ⟨((build_update_payload_spec [("name", .vstr "x")] ["name"]).1
      [("name", PyVal.vstr "x")] rfl).trans rfl,
   (build_update_payload_spec [] ["name"]).2.2⟩

lemma chunksOf_flatten (n : Nat) : ∀ l : List UInt8, (chunksOf n l).flatten = l
  | [] => by rw [chunksOf]; rfl
  | x :: xs => by
      rw [chunksOf]
      simp only [List.flatten_cons]
      rw [chunksOf_flatten n (xs.drop (n - 1))]
      simp [List.take_append_drop]
termination_by l => l.length
decreasing_by
  simp only [List.length_drop, List.length_cons]
  omega

lemma writeLoop_ok_size :
    ∀ (chunks : List (List UInt8)) (size : Nat) (written : List UInt8)
      (s : Nat) (w : List UInt8),
      writeLoop chunks size written = .ok (s, w) →
      s = size + (chunks.map List.length).sum
  | [], size, written, s, w, h => by
      simp only [writeLoop] at h
      cases h
      simp
  | c :: rest, size, written, s, w, h => by
      rw [writeLoop] at h
      by_cases hc : MAX_UPLOAD_SIZE < size + c.length
      · rw [if_pos hc] at h
        cases h
      · rw [if_neg hc] at h
        have := writeLoop_ok_size rest (size + c.length) (written ++ c) s w h
        simp only [List.map_cons, List.sum_cons]
        omega

lemma writeLoop_ok_le :
    ∀ (chunks : List (List UInt8)) (size : Nat) (written : List UInt8)
      (s : Nat) (w : List UInt8),
      size ≤ MAX_UPLOAD_SIZE →
      writeLoop chunks size written = .ok (s, w) →
      s ≤ MAX_UPLOAD_SIZE
  | [], size, written, s, w, hle, h => by
      simp only [writeLoop] at h
      cases h
      exact hle
  | c :: rest, size, written, s, w, hle, h => by
      rw [writeLoop] at h
      by_cases hc : MAX_UPLOAD_SIZE < size + c.length
      · rw [if_pos hc] at h
        cases h
      · rw [if_neg hc] at h
        exact writeLoop_ok_le rest (size + c.length) (written ++ c) s w
          (Nat.le_of_not_lt hc) h

lemma writeLoop_error_eq :
    ∀ (chunks : List (List UInt8)) (size : Nat) (written : List UInt8)
      (e : HTTPError),
      writeLoop chunks size written = .error e → e = ⟨400, "File too large"⟩
  | [], size, written, e, h => by simp [writeLoop] at h
  | c :: rest, size, written, e, h => by
      rw [writeLoop] at h
      by_cases hc : MAX_UPLOAD_SIZE < size + c.length
      · rw [if_pos hc] at h
        cases h
        rfl
      · rw [if_neg hc] at h
        exact writeLoop_error_eq rest (size + c.length) (written ++ c) e h

/-- C6: for every upload whose total size exceeds the 10 MiB ceiling, with
an allowed extension, `validate_upload` aborts with 400 "File too large",
deleting the partial temporary file and leaving no file on disk afterward. -/
theorem validate_upload_too_large (filename : String) (content : List UInt8)
    (hext : extOf filename ∈ ALLOWED_EXTENSIONS)
    (hsize : MAX_UPLOAD_SIZE < content.length) :
    validate_upload filename content = (.error ⟨400, "File too large"⟩, false) := by
  unfold validate_upload
  rw [if_neg (not_not_intro hext)]
  cases hw : writeLoop (chunksOf 4096 content) 0 [] with
  | error e =>
      obtain rfl : e = ⟨400, "File too large"⟩ := writeLoop_error_eq _ _ _ _ hw
      rfl
  | ok sw =>
      exfalso
      obtain ⟨s, w⟩ := sw
      have h1 := writeLoop_ok_size _ _ _ _ _ hw
      have h2 := writeLoop_ok_le _ _ _ _ _ (Nat.zero_le _) hw
      have h3 : ((chunksOf 4096 content).map List.length).sum = content.length := by
        rw [← List.length_flatten, chunksOf_flatten]
      omega

theorem validate_upload_too_large_witness :
    extOf "a.txt" ∈ ALLOWED_EXTENSIONS
    ∧ MAX_UPLOAD_SIZE < (List.replicate 10485761 (0 : UInt8)).length
    ∧ validate_upload "a.txt" (List.replicate 10485761 (0 : UInt8))
        = (.error ⟨400, "File too large"⟩, false) :=
  ⟨by decide,
   lt_of_lt_of_eq (by decide) (List.length_replicate 10485761 (0 : UInt8)).symm,
   validate_upload_too_large "a.txt" (List.replicate 10485761 (0 : UInt8))
     (by decide)
     (lt_of_lt_of_eq (by decide) (List.length_replicate 10485761 (0 : UInt8)).symm)⟩

lemma check_rate_limit_cases (window : ℤ) (maxReq : Nat) (store : RateStore)
    (ip route : String) (now : ℤ) :
    (maxReq ≤ ((store (ip ++ ":" ++ route)).filter (fun t => now - t < window)).length →
      check_rate_limit window maxReq store ip route now
        = (false, fun k => if k = ip ++ ":" ++ route then
            (store (ip ++ ":" ++ route)).filter (fun t => now - t < window)
          else store k))
    ∧ (((store (ip ++ ":" ++ route)).filter (fun t => now - t < window)).length < maxReq →
      check_rate_limit window maxReq store ip route now
        = (true, fun k => if k = ip ++ ":" ++ route then
            (store (ip ++ ":" ++ route)).filter (fun t => now - t < window) ++ [now]
          else store k)) := by
  unfold check_rate_limit
  constructor
  · intro h
    rw [if_pos h]
  · intro h
    rw [if_neg (Nat.not_le.mpr h)]

/-- C3: each call to `check_rate_limit` first discards stored timestamps
older than the window; if the remaining count is at or above the ceiling it
returns false without recording a new timestamp, and otherwise it records
`now` and returns true; with window 60 and ceiling 3, four calls for the same
(ip, route) within one second yield [true, true, true, false]. -/
theorem check_rate_limit_spec (window : ℤ) (maxReq : Nat) (store : RateStore)
    (ip route : String) (now t1 t2 t3 t4 : ℤ)
    (h12 : t1 ≤ t2) (h23 : t2 ≤ t3) (h34 : t3 ≤ t4) (hspan : t4 ≤ t1 + 1) :
    (maxReq ≤ ((store (ip ++ ":" ++ route)).filter (fun t => now - t < window)).length →
      check_rate_limit window maxReq store ip route now
        = (false, fun k => if k = ip ++ ":" ++ route then
            (store (ip ++ ":" ++ route)).filter (fun t => now - t < window)
          else store k))
    ∧ (((store (ip ++ ":" ++ route)).filter (fun t => now - t < window)).length < maxReq →
      check_rate_limit window maxReq store ip route now
        = (true, fun k => if k = ip ++ ":" ++ route then
            (store (ip ++ ":" ++ route)).filter (fun t => now - t < window) ++ [now]
          else store k))
    ∧ (let r1 := check_rate_limit 60 3 (fun _ => []) "ip1" "/x" t1
       let r2 := check_rate_limit 60 3 r1.2 "ip1" "/x" t2
       let r3 := check_rate_limit 60 3 r2.2 "ip1" "/x" t3
       let r4 := check_rate_limit 60 3 r3.2 "ip1" "/x" t4
       [r1.1, r2.1, r3.1, r4.1] = [true, true, true, false]) := by
  refine ⟨(check_rate_limit_cases window maxReq store ip route now).1,
          (check_rate_limit_cases window maxReq store ip route now).2, ?_⟩
  have hf21 : t2 - t1 < 60 := by omega
  have hf31 : t3 - t1 < 60 := by omega
  have hf32 : t3 - t2 < 60 := by omega
  have hf41 : t4 - t1 < 60 := by omega
  have hf42 : t4 - t2 < 60 := by omega
  have hf43 : t4 - t3 < 60 := by omega
  simp [check_rate_limit, List.filter_cons, hf21, hf31, hf32, hf41, hf42, hf43]

theorem check_rate_limit_spec_witness :
    ((0:ℤ) ≤ 0) ∧ ((1:ℤ) ≤ 0 + 1)
    ∧ (let r1 := check_rate_limit 60 3 (fun _ => []) "ip1" "/x" 0
       let r2 := check_rate_limit 60 3 r1.2 "ip1" "/x" 0
       let r3 := check_rate_limit 60 3 r2.2 "ip1" "/x" 0
       let r4 := check_rate_limit 60 3 r3.2 "ip1" "/x" 1
       [r1.1, r2.1, r3.1, r4.1] = [true, true, true, false]) :=
  ⟨by decide, by decide,
    (check_rate_limit_spec 60 3 (fun _ => []) "ip1" "/x" 0 0 0 0 1
      (by decide) (by decide) (by decide) (by decide)).2.2⟩

/-- C9: `check_rate_limit` preserves the rate-store invariant `RateInv`
(per-key list no longer than the ceiling, only timestamps within the trailing
window of the last check on that key, nondecreasing), for a positive window
and a monotone clock; since the initial empty store satisfies `RateInv`
trivially, the invariant holds after every call. -/
theorem check_rate_limit_invariant (window : ℤ) (maxReq : Nat) (store : RateStore)
    (last : String → Option ℤ) (ip route : String) (now : ℤ)
    (hwin : 0 < window)
    (hinv : RateInv window maxReq store last)
    (hmono : ∀ T, last (ip ++ ":" ++ route) = some T → T ≤ now) :
    RateInv window maxReq (check_rate_limit window maxReq store ip route now).2
      (fun k => if k = ip ++ ":" ++ route then some now else last k) := by
  have hcases := check_rate_limit_cases window maxReq store ip route now
  intro k
  by_cases hk : k = ip ++ ":" ++ route
  · subst hk
    have hlast : (fun k' => if k' = ip ++ ":" ++ route then some now else last k')
        (ip ++ ":" ++ route) = some now := by simp
    rw [hlast]
    -- facts about the old list at this key
    have hall : ∀ t ∈ store (ip ++ ":" ++ route), t ≤ now := by
      intro t ht
      cases hlk : last (ip ++ ":" ++ route) with
      | none =>
          have h0 := hinv (ip ++ ":" ++ route)
          rw [hlk] at h0
          rw [h0] at ht
          cases ht
      | some T =>
          have h1 := hinv (ip ++ ":" ++ route)
          rw [hlk] at h1
          exact le_trans (h1.2.1 t ht).2 (hmono T hlk)
    have hsorted : (store (ip ++ ":" ++ route)).Sorted (· ≤ ·) := by
      cases hlk : last (ip ++ ":" ++ route) with
      | none =>
          have h0 := hinv (ip ++ ":" ++ route)
          rw [hlk] at h0
          rw [h0]
          exact List.sorted_nil
      | some T =>
          have h1 := hinv (ip ++ ":" ++ route)
          rw [hlk] at h1
          exact h1.2.2
    have hlen : (store (ip ++ ":" ++ route)).length ≤ maxReq
        ∨ store (ip ++ ":" ++ route) = [] := by
      cases hlk : last (ip ++ ":" ++ route) with
      | none =>
          have h0 := hinv (ip ++ ":" ++ route)
          rw [hlk] at h0
          exact Or.inr h0
      | some T =>
          have h1 := hinv (ip ++ ":" ++ route)
          rw [hlk] at h1
          exact Or.inl h1.1
    have hprlen : ((store (ip ++ ":" ++ route)).filter
        (fun t => now - t < window)).length ≤ (store (ip ++ ":" ++ route)).length :=
      List.length_filter_le _ _
    have hprmem : ∀ t ∈ (store (ip ++ ":" ++ route)).filter
        (fun t => now - t < window), (now - t < window ∧ t ≤ now) := by
      intro t ht
      have h1 := List.mem_filter.mp ht
      exact ⟨by simpa using h1.2, hall t h1.1⟩
    have hprsorted : ((store (ip ++ ":" ++ route)).filter
        (fun t => now - t < window)).Sorted (· ≤ ·) := hsorted.filter _
    by_cases hbr : maxReq ≤ ((store (ip ++ ":" ++ route)).filter
        (fun t => now - t < window)).length
    · have hs2 : (check_rate_limit window maxReq store ip route now).2
          (ip ++ ":" ++ route)
          = (store (ip ++ ":" ++ route)).filter (fun t => now - t < window) := by
        rw [hcases.1 hbr]
        simp
      rw [hs2]
      refine ⟨?_, hprmem, hprsorted⟩
      rcases hlen with h | h
      · exact le_trans hprlen h
      · rw [h]
        simp
    · have hs2 : (check_rate_limit window maxReq store ip route now).2
          (ip ++ ":" ++ route)
          = (store (ip ++ ":" ++ route)).filter (fun t => now - t < window)
              ++ [now] := by
        rw [hcases.2 (Nat.not_le.mp hbr)]
        simp
      rw [hs2]
      refine ⟨?_, ?_, ?_⟩
      · have h1 : ((store (ip ++ ":" ++ route)).filter
            (fun t => now - t < window)).length + 1 ≤ maxReq :=
          Nat.succ_le_of_lt (Nat.not_le.mp hbr)
        simpa using h1
      · intro t ht
        rcases List.mem_append.mp ht with h1 | h1
        · exact hprmem t h1
        · simp only [List.mem_singleton] at h1
          subst h1
          exact ⟨by simpa using hwin, le_refl _⟩
      · rw [List.Sorted, List.pairwise_append]
        refine ⟨hprsorted, List.sorted_singleton _, ?_⟩
        intro a ha b hb
        simp only [List.mem_singleton] at hb
        subst hb
        exact (hprmem a ha).2
  · have hlast : (fun k' => if k' = ip ++ ":" ++ route then some now else last k') k
        = last k := by simp [hk]
    rw [hlast]
    have hs2 : (check_rate_limit window maxReq store ip route now).2 k = store k := by
      by_cases hbr : maxReq ≤ ((store (ip ++ ":" ++ route)).filter
          (fun t => now - t < window)).length
      · rw [hcases.1 hbr]
        simp [hk]
      · rw [hcases.2 (Nat.not_le.mp hbr)]
        simp [hk]
    rw [hs2]
    exact hinv k

theorem check_rate_limit_invariant_witness :
    ((0:ℤ) < 60)
    ∧ RateInv 60 30 (fun _ => []) (fun _ => none)
    ∧ RateInv 60 30 ((check_rate_limit 60 30 (fun _ => []) "ip1" "/x" 0).2)
        (fun k => if k = "ip1" ++ ":" ++ "/x" then some 0 else none) :=
  ⟨by decide, fun _ => rfl,
    check_rate_limit_invariant 60 30 (fun _ => []) (fun _ => none) "ip1" "/x" 0
      (by decide) (fun _ => rfl) (fun T h => Option.noConfusion h)⟩
